import Mathlib

/-!
Verification of the ReconLens recon pipeline against its specification.

The development shallowly embeds the Python sources:

* `core/scope.py` — scope filter (`is_in_scope`, `matches_any`,
  `host_in_root_scope`), with `fnmatch` modelled by an explicit glob
  matcher over `*`, `?` and literal characters.
* `app/services/enrich_urls.py` and `app/services/url_cache.py` — the two
  URL canonicalizers.  Python's `urllib.parse.urlsplit` is modelled by an
  executable splitter for absolute URLs of the shape
  `scheme://host[:port]path?query#fragment`.
* `app/services/ai_apply.py` — the priority-tuple classification engine.
* `app/services/ai_rules.py` — the first-match classification engine, its
  load-time rule merge and the quota-balanced sampler.  Compiled regular
  expressions are modelled as their match functions (`String → Bool`),
  and `random.shuffle` as an explicit permutation parameter.
* `tools/probe_urls.py`, `tools/probe_paths.py`,
  `tools/probe_subdomains.py` — record construction of the three probers
  (network I/O is modelled by an explicit outcome value per attempt).
* the snapshot readers of the enrichment store, with `json.loads`
  modelled as an `Option`-valued parse oracle.

Machine integers do not overflow in any of the embedded code paths
(HTTP status codes, counters), so `Nat`/`Int` are used directly.
-/

namespace ReconLens

/-! ## Small Python-flavoured helpers -/

/-- Association-list lookup, modelling Python `dict.get` (first binding wins;
the lists we build never contain duplicate keys). -/
def alookup {α : Type} (m : List (String × α)) (k : String) : Option α :=
  match m.find? (fun kv => kv.1 = k) with
  | some kv => some kv.2
  | none => none

/-- Association-list assignment, modelling Python `d[k] = v`: replaces the
value in place when the key is present, appends otherwise. -/
def alistInsert {α : Type} (m : List (String × α)) (k : String) (v : α) :
    List (String × α) :=
  match m with
  | [] => [(k, v)]
  | kv :: rest =>
      if kv.1 = k then (k, v) :: rest else kv :: alistInsert rest k v

/-- Python `base.update(m)`: assign every binding of `m` into `base`,
in order. -/
def dictUpdate {α : Type} (base m : List (String × α)) : List (String × α) :=
  m.foldl (fun b kv => alistInsert b kv.1 kv.2) base

/-! ## Kernel-computable string primitives

Lean's built-in `String.toLower`, `String.endsWith`, `String.splitOn` do
not reduce inside the kernel, so the embedding uses character-list
implementations.  All strings handled by the pipeline (hosts, URLs,
labels) are ASCII, where `Char.toLower` agrees with Python `str.lower`. -/

/-- Python `str.lower` (ASCII). -/
def lowerStr (s : String) : String :=
  String.mk (s.toList.map Char.toLower)

/-- Python `str.upper` (ASCII). -/
def upperStr (s : String) : String :=
  String.mk (s.toList.map Char.toUpper)

/-- Python `str.endsWith`. -/
def strEndsWith (s suffix : String) : Bool :=
  List.isSuffixOf suffix.toList s.toList

/-! ## Scope filter (`core/scope.py`) -/

/-- Glob matching on character lists: `*` matches any run, `?` any single
character, everything else literally.  This is the bracket-free fragment of
Python's `fnmatch.fnmatch` (no pattern in this development uses `[...]`).
Structural recursion on an explicit fuel argument keeps the function
kernel-computable; every call consumes either a pattern or a subject
character, so `ps.length + cs.length + 1` fuel is always enough. -/
def globMatchF : Nat → List Char → List Char → Bool
  | 0, _, _ => false
  | _ + 1, [], cs => cs.isEmpty
  | fuel + 1, '*' :: ps, [] => globMatchF fuel ps []
  | fuel + 1, '*' :: ps, c :: cs =>
      globMatchF fuel ps (c :: cs) || globMatchF fuel ('*' :: ps) cs
  | _ + 1, '?' :: _, [] => false
  | fuel + 1, '?' :: ps, _ :: cs => globMatchF fuel ps cs
  | _ + 1, _ :: _, [] => false
  | fuel + 1, p :: ps, c :: cs => (p = c) && globMatchF fuel ps cs

/-- Python `fnmatch.fnmatch(h, pat)` on an OS without case folding
(both sides are lowercased by the callers below, as in the source). -/
def fnmatch (h pat : String) : Bool :=
  globMatchF (pat.length + h.length + 1) pat.toList h.toList

/-- Python `str.rstrip(".")`: drop trailing dots. -/
def rstripDot (s : String) : String :=
  String.mk ((s.toList.reverse.dropWhile (fun c => c = '.')).reverse)

/-- Embeds `core/scope.py::host_in_root_scope`. -/
def host_in_root_scope (host root_domain : String) : Bool :=
  let host := rstripDot (lowerStr host)
  let root := rstripDot (lowerStr root_domain)
  if host = "" || root = "" then false
  else host = root || strEndsWith host ("." ++ root)

/-- Embeds `core/scope.py::matches_any`. -/
def matches_any (host : String) (patterns : List String) : Bool :=
  let h := lowerStr host
  patterns.any (fun pat => fnmatch h (lowerStr pat))

/-- Embeds `core/scope.py::is_in_scope`.  `None` pattern lists are passed by
callers as empty lists; Python truthiness of the lists is the emptiness
test. -/
def is_in_scope (host root_domain : String)
    (allow_subdomains : List String := [])
    (deny_subdomains : List String := []) : Bool :=
  if !allow_subdomains.isEmpty then
    matches_any host allow_subdomains
  else if !deny_subdomains.isEmpty && matches_any host deny_subdomains then
    false
  else
    host_in_root_scope host root_domain

/-! ## URL splitting (model of `urllib.parse.urlsplit` / `urlunsplit`)

The splitter below is faithful to CPython for absolute URLs of the shape
`scheme://host[:port]path?query#fragment` without user-info, IPv6
brackets or path parameters — the only shapes the pipeline feeds it. -/

/-- Python `str.strip()` (whitespace). -/
def pyStrip (s : String) : String :=
  String.mk
    (((s.toList.dropWhile Char.isWhitespace).reverse.dropWhile
      Char.isWhitespace).reverse)

/-- Split a character list at the first occurrence of `c`; the second
component is `none` when `c` does not occur. -/
def breakOnChar (c : Char) : List Char → List Char × Option (List Char)
  | [] => ([], none)
  | x :: xs =>
      if x = c then ([], some xs)
      else
        let r := breakOnChar c xs
        (x :: r.1, r.2)

/-- Characters allowed in a URL scheme after the initial letter. -/
def isSchemeChar (c : Char) : Bool :=
  c.isAlphanum || c = '+' || c = '-' || c = '.'

/-- Result of `urlsplit` (the five-tuple; `urlparse`'s `params` is empty
for every URL the pipeline handles). -/
structure SplitResult where
  scheme : String
  netloc : String
  path : String
  query : String
  fragment : String
deriving DecidableEq, Repr

/-- Model of `urllib.parse.urlsplit`. -/
def pyUrlsplit (u : String) : SplitResult :=
  let l := u.toList
  let fragSplit := breakOnChar '#' l
  let beforeFrag := fragSplit.1
  let frag := (fragSplit.2).getD []
  let schemeSplit :=
    match breakOnChar ':' beforeFrag with
    | (pre, some post) =>
        (match pre with
         | [] => ([], beforeFrag)
         | c0 :: _ =>
             if c0.isAlpha && pre.all isSchemeChar then
               (pre.map Char.toLower, post)
             else ([], beforeFrag))
    | (_, none) => ([], beforeFrag)
  let schemeL := schemeSplit.1
  let rest := schemeSplit.2
  let netSplit :=
    if rest.take 2 = ['/', '/'] then
      let after := rest.drop 2
      let netl := after.takeWhile (fun c => c ≠ '/' && c ≠ '?')
      (netl, after.drop netl.length)
    else ([], rest)
  let netlocL := netSplit.1
  let afterNet := netSplit.2
  let querySplit :=
    match breakOnChar '?' afterNet with
    | (p, some q) => (p, q)
    | (p, none) => (p, [])
  { scheme := String.mk schemeL
    netloc := String.mk netlocL
    path := String.mk querySplit.1
    query := String.mk querySplit.2
    fragment := String.mk frag }

/-- Model of `urllib.parse.urlunsplit`. -/
def urlunsplit (scheme netloc path query fragment : String) : String :=
  let url := path
  let url :=
    if netloc ≠ "" || (url ≠ "" && url.toList.take 2 = ['/', '/']) then
      (if url ≠ "" && url.toList.take 1 ≠ ['/'] then
        "//" ++ netloc ++ "/" ++ url
      else "//" ++ netloc ++ url)
    else url
  let url := if scheme ≠ "" then scheme ++ ":" ++ url else url
  let url := if query ≠ "" then url ++ "?" ++ query else url
  if fragment ≠ "" then url ++ "#" ++ fragment else url

/-- The `hostname` attribute of a split result: the part of the netloc
after the last `@` and before the first `:`, lowercased. -/
def hostOfNetloc (netloc : String) : String :=
  let hostinfo := (netloc.toList.reverse.takeWhile (fun c => c ≠ '@')).reverse
  String.mk ((hostinfo.takeWhile (fun c => c ≠ ':')).map Char.toLower)

/-- Value of the `port` attribute: absent, a number, or a `ValueError`. -/
inductive PortVal
  | absent
  | ok (n : Nat)
  | err
deriving DecidableEq, Repr

/-- Numeric value of a digit list. -/
def natOfDigits (l : List Char) : Nat :=
  l.foldl (fun n c => n * 10 + (c.toNat - 48)) 0

/-- The `port` attribute of a split result: digits after the first `:`
of the host info; empty means absent; non-digits raise `ValueError`. -/
def portOfNetloc (netloc : String) : PortVal :=
  let hostinfo := (netloc.toList.reverse.takeWhile (fun c => c ≠ '@')).reverse
  match breakOnChar ':' hostinfo with
  | (_, none) => .absent
  | (_, some p) =>
      if p = [] then .absent
      else if p.all Char.isDigit then
        let n := natOfDigits p
        if n ≤ 65535 then .ok n else .err
      else .err

/-! ## Canonicalizer of `app/services/enrich_urls.py` -/

namespace EnrichUrls

/-- Body of `enrich_urls.py::canon_url` after `urlsplit`; `u` is the raw
input returned unchanged when reading `s.port` raises (the function's
`except` clause). -/
def canonOfSplit (u : String) (s : SplitResult) : String :=
  match portOfNetloc s.netloc with
  | .err => u
  | pv =>
      let scheme := lowerStr (if s.scheme = "" then "http" else s.scheme)
      let host := lowerStr (hostOfNetloc s.netloc)
      let netloc :=
        match pv with
        | .ok port =>
            if port ≠ 0 &&
                !((scheme = "http" && port = 80) ||
                  (scheme = "https" && port = 443)) then
              host ++ ":" ++ toString port
            else host
        | _ => host
      let path := if s.path = "" then "/" else s.path
      let path :=
        if path ≠ "/" && strEndsWith path "/" then
          String.mk (path.toList.dropLast)
        else path
      urlunsplit scheme netloc path s.query ""

/-- Embeds `enrich_urls.py::canon_url`. -/
def canon_url (u : String) : String :=
  canonOfSplit u (pyUrlsplit (pyStrip u))

end EnrichUrls

/-! ## Canonicalizer of `app/services/url_cache.py` -/

namespace UrlCache

/-- Embeds `url_cache.py::canon_url`: lowercases scheme and the whole
netloc (keeping any explicit port), defaults the path to `/`, keeps the
query and drops the fragment.  `urlparse`/`urlunparse` with empty params
coincide with `urlsplit`/`urlunsplit` on the URLs the pipeline handles. -/
def canon_url (u : String) : String :=
  let pu := pyUrlsplit u
  let scheme := lowerStr pu.scheme
  let netloc := lowerStr pu.netloc
  let path := if pu.path = "" then "/" else pu.path
  urlunsplit scheme netloc path pu.query ""

end UrlCache

/-! ## Priority-tuple classification engine (`app/services/ai_apply.py`)

Compiled regular expressions are modelled as their match functions
(`String → Bool`); `re.compile` failures are dropped before this stage by
`compile_rules`, so every modelled rule carries a working matcher. -/

namespace AiApply

/-- Embeds the `CompiledRule` dataclass of `ai_apply.py`. -/
structure CompiledRule where
  id : String
  label : String
  reason : String
  regex : String → Bool
  code_in : List Int
  source : String

/-- Normalized rule spec, the element shape produced by
`ai_apply.py::_normalize_rules` (a pattern that compiles, as its
matcher). -/
structure RuleSpec where
  id : String
  label : String
  reason : String
  pattern : String → Bool
  code_in : List Int

/-- Embeds `ai_apply.py::compile_rules` (the invalid-regex skip cannot
fire because modelled patterns are already compiled). -/
def compile_rules (rules : List RuleSpec) (source : String) :
    List CompiledRule :=
  rules.map (fun r =>
    { id := r.id, label := r.label, reason := r.reason,
      regex := r.pattern, code_in := r.code_in, source := source })

/-- Embeds the rule-loading block of `ai_apply.py::apply_rules`
(lines 178–184) with all three sources selected: the compiled source
lists are concatenated, with no per-id dedup. -/
def rules_all (seed custom ai : List RuleSpec) : List CompiledRule :=
  compile_rules seed "seed" ++ compile_rules custom "custom" ++
    compile_rules ai "ai"

/-- Embeds the `ApplyOptions` dataclass. -/
structure ApplyOptions where
  demote_if_no_code : Bool := true
  http_required : Bool := false
  sample_limit : Nat := 500
  limit_sample : Option Nat := none

/-- Embeds `ai_apply.py::_severity_weight`. -/
def _severity_weight (label : String) : Nat :=
  if upperStr label = "HIGH" then 4
  else if upperStr label = "MEDIUM" then 3
  else if upperStr label = "LOW" then 2
  else if upperStr label = "INFO" then 1
  else 0

/-- The `source_prio` table of `ai_apply.py::apply_rules`. -/
def sourcePriorityOf (s : String) : Nat :=
  if s = "custom" then 3
  else if s = "ai" then 2
  else if s = "seed" then 1
  else 0

/-- Embeds `ai_apply.py::_maybe_demote`: step one severity tier down. -/
def _maybe_demote (label : String) : String :=
  let steps := ["INFO", "LOW", "MEDIUM", "HIGH"]
  let idx := if steps.contains label then steps.indexOf label else 0
  steps.getD (idx - 1) "INFO"

/-- Embeds the `better` closure of `ai_apply.py::apply_rules`. -/
def better (curr : Option (Nat × Nat)) (cand_label cand_src_tag : String) :
    Bool :=
  let sev := _severity_weight cand_label
  let srcp := sourcePriorityOf cand_src_tag
  match curr with
  | none => true
  | some (c_sev, c_srcp) =>
      if sev ≠ c_sev then decide (c_sev < sev) else decide (c_srcp < srcp)

/-- The effective label of a candidate rule for a URL: demoted one tier
when the demote-on-missing-code option is on and no HTTP code was
observed (lines 243–246). -/
def effLabel (opts : ApplyOptions) (code_i : Option Int)
    (r : CompiledRule) : String :=
  if opts.demote_if_no_code && code_i.isNone then _maybe_demote r.label
  else r.label

/-- The `code_in` skip test of the rule loop (line 236): a candidate is
skipped only when the rule has a non-empty `code_in`, an integer code was
observed, and the code is outside the set. -/
def codeInSkip (r : CompiledRule) (code_i : Option Int) : Bool :=
  !r.code_in.isEmpty &&
    (match code_i with
     | some c => !(r.code_in.contains c)
     | none => false)

/-- A rule is eligible for a URL when it is not `code_in`-skipped and its
pattern matches. -/
def eligible (url : String) (code_i : Option Int) (r : CompiledRule) :
    Bool :=
  !(codeInSkip r code_i) && r.regex url

/-- The per-URL best-match accumulator of `ai_apply.py::apply_rules`. -/
structure Best where
  tuple : Option (Nat × Nat) := none
  label : Option String := none
  reason : Option String := none
  src_tag : Option String := none
  rule_id : Option String := none
deriving DecidableEq, Repr

/-- One iteration of the rule loop (lines 234–253). -/
def stepRule (opts : ApplyOptions) (url : String) (code_i : Option Int)
    (st : Best) (r : CompiledRule) : Best :=
  if codeInSkip r code_i then st
  else if !(r.regex url) then st
  else
    let lab := effLabel opts code_i r
    if better st.tuple lab r.source then
      { tuple := some (_severity_weight lab, sourcePriorityOf r.source),
        label := some lab, reason := some r.reason,
        src_tag := some r.source, rule_id := some r.id }
    else st

/-- The whole rule loop for one URL. -/
def bestFor (opts : ApplyOptions) (rules : List CompiledRule)
    (url : String) (code_i : Option Int) : Best :=
  rules.foldl (stepRule opts url code_i) {}

/-- The priority tuple a candidate rule would write into the accumulator. -/
def candTuple (opts : ApplyOptions) (code_i : Option Int)
    (r : CompiledRule) : Nat × Nat :=
  (_severity_weight (effLabel opts code_i r), sourcePriorityOf r.source)

/-- Lexicographic order on priority tuples, the order `better`
implements (severity first, then source priority). -/
def lexLe (a b : Nat × Nat) : Prop :=
  a.1 < b.1 ∨ (a.1 = b.1 ∧ a.2 ≤ b.2)

instance (a b : Nat × Nat) : Decidable (lexLe a b) := by
  unfold lexLe; infer_instance

/-- One output row of `ai_apply.py::apply_rules`. -/
structure Row where
  url : String
  label : String
  reason : String
  final_label : String
  final_reason : String
  source : String
  rule_id : String
  code : Option Int
deriving DecidableEq, Repr

/-- Per-URL body of the corpus loop (lines 216–266): the
`http_required` skip, the rule loop, and the `if best_label:` row
construction (Python truthiness: an empty label produces no row). -/
def classifyUrl (opts : ApplyOptions) (rules : List CompiledRule)
    (url : String) (code_i : Option Int) : Option Row :=
  if opts.http_required && code_i.isNone then none
  else
    let b := bestFor opts rules url code_i
    match b.label with
    | some lab =>
        if lab ≠ "" then
          some { url := url, label := lab, reason := b.reason.getD "",
                 final_label := lab, final_reason := b.reason.getD "",
                 source := b.src_tag.getD "", rule_id := b.rule_id.getD "",
                 code := code_i }
        else none
    | none => none

/-- Concrete HIGH/seed rule used for witness instantiations. -/
def ruleHighSeed : CompiledRule :=
  { id := "h", label := "HIGH", reason := "high rule",
    regex := fun _ => true, code_in := [], source := "seed" }

/-- Concrete MEDIUM/custom rule used for witness instantiations. -/
def ruleMediumCustom : CompiledRule :=
  { id := "m", label := "MEDIUM", reason := "medium rule",
    regex := fun _ => true, code_in := [], source := "custom" }

end AiApply

/-! ## First-match classification engine (`app/services/ai_rules.py`) -/

namespace AiRules

/-- The fixed severity list `LABELS` of `ai_rules.py`. -/
def LABELS : List String := ["HIGH", "MEDIUM", "LOW", "INFO"]

/-- A compiled rule dict as produced by `ai_rules.py::_compile_rule`:
the `_re` matcher plus the optional constraint fields, with Python-falsy
defaults (`[]` / `""`) standing for absent keys. -/
structure Rule where
  id : String
  label : String
  reason : String
  rmatch : String → Bool
  method : List String := []
  host_contains : String := ""
  path_contains : String := ""
  code_in : List Int := []

/-- An enrichment record as read by the engine (`mode`/`method`/`code`
are the only keys it consults). -/
structure EnrichRec where
  mode : Option String := none
  method : Option String := none
  code : Option Int := none
deriving DecidableEq, Repr

/-- Python `x or default` for strings: `none`/empty is falsy. -/
def truthyStr : Option String → Option String
  | some s => if s = "" then none else some s
  | none => none

/-- Occurrence of a character sequence inside another. -/
def seqIn (needle : List Char) : List Char → Bool
  | [] => needle.isEmpty
  | h :: hs => needle.isPrefixOf (h :: hs) || seqIn needle hs

/-- Python substring test `needle in hay`. -/
def strContains (hay needle : String) : Bool :=
  seqIn needle.toList hay.toList

/-- Embeds `ai_rules.py::_safe_host` (`urlparse(url).netloc.lower()`). -/
def _safe_host (url : String) : String :=
  lowerStr (pyUrlsplit url).netloc

/-- Embeds `ai_rules.py::_safe_path`. -/
def _safe_path (url : String) : String :=
  let p := (pyUrlsplit url).path
  if p = "" then "/" else p

/-- The `m = rec.get("mode") or rec.get("method")` chain. -/
def methodField (rec? : Option EnrichRec) : Option String :=
  match truthyStr (rec?.bind (fun r => r.mode)) with
  | some s => some s
  | none => truthyStr (rec?.bind (fun r => r.method))

/-- The method constraint check inside `_matches_rule`. -/
def methodOk (rec? : Option EnrichRec) (rule : Rule) : Bool :=
  match methodField rec? with
  | none => false
  | some m => (rule.method.map upperStr).contains (upperStr m)

/-- The `code_in` constraint check inside `_matches_rule`: with no
observed code, `None not in set(...)` makes the rule fail. -/
def codeOk (rec? : Option EnrichRec) (rule : Rule) : Bool :=
  match rec?.bind (fun r => r.code) with
  | some c => rule.code_in.contains c
  | none => false

/-- Embeds `ai_rules.py::_matches_rule`. -/
def _matches_rule (url : String) (rec? : Option EnrichRec) (rule : Rule) :
    Bool :=
  if !(rule.rmatch url) then false
  else if !rule.method.isEmpty && !(methodOk rec? rule) then false
  else if rule.host_contains ≠ "" &&
      !(strContains (lowerStr (_safe_host url))
        (lowerStr rule.host_contains)) then false
  else if rule.path_contains ≠ "" &&
      !(strContains (lowerStr (_safe_path url))
        (lowerStr rule.path_contains)) then false
  else if !rule.code_in.isEmpty && !(codeOk rec? rule) then false
  else true

/-- Embeds `ai_rules.py::_demote_by_http` (the 401/403/404 policy). -/
def _demote_by_http (label : String) (rec? : Option EnrichRec)
    (demote_blocked demote_404 : Bool) : String :=
  match rec? with
  | none => label
  | some r =>
      match r.code with
      | none => label
      | some code =>
          if demote_blocked && (code = 401 || code = 403) then "INFO"
          else if demote_404 && code = 404 then "INFO"
          else label

/-- Python `s or default` for a plain string. -/
def strOrDefault (s dflt : String) : String :=
  if s = "" then dflt else s

/-- Embeds the record lookup chain
`enrich_map.get(url) or enrich_map.get(url.rstrip("/")) or
enrich_map.get(url + "/")` (stored records are non-empty dicts, hence
truthy). -/
def pyRstripSlash (s : String) : String :=
  String.mk ((s.toList.reverse.dropWhile (fun c => c = '/')).reverse)

/-- Record lookup for a URL, see `pyRstripSlash`. -/
def lookupRec (enrich : List (String × EnrichRec)) (url : String) :
    Option EnrichRec :=
  match alookup enrich url with
  | some r => some r
  | none =>
      match alookup enrich (pyRstripSlash url) with
      | some r => some r
      | none => alookup enrich (url ++ "/")

/-- One output row of `ai_rules.py::apply_rules`. -/
structure Row where
  url : String
  rule_id : String
  label : String
  reason : String
  final_label : String
  code : Option Int
deriving DecidableEq, Repr

/-- The four-key counts dict (every counted label is in `LABELS`, so the
dict never grows new keys). -/
structure Counts where
  high : Nat := 0
  medium : Nat := 0
  low : Nat := 0
  info : Nat := 0
deriving DecidableEq, Repr

/-- Add one to the bucket of a final label. -/
def bumpCount (c : Counts) (label : String) : Counts :=
  if label = "HIGH" then { c with high := c.high + 1 }
  else if label = "MEDIUM" then { c with medium := c.medium + 1 }
  else if label = "LOW" then { c with low := c.low + 1 }
  else if label = "INFO" then { c with info := c.info + 1 }
  else c

/-- Per-URL body of the corpus loop of `ai_rules.py::apply_rules`
(lines 163–183): first matching rule in list order wins. -/
def classifyUrl (rules : List Rule) (enrich : List (String × EnrichRec))
    (demote_blocked demote_404 : Bool) (url : String) : Option Row :=
  let rec? := lookupRec enrich url
  match rules.find? (fun r => _matches_rule url rec? r) with
  | none => none
  | some matched =>
      let coerced :=
        let l := upperStr (strOrDefault matched.label "INFO")
        if LABELS.contains l then l else "INFO"
      let final := _demote_by_http coerced rec? demote_blocked demote_404
      some { url := url,
             rule_id := strOrDefault matched.id "?",
             label := upperStr (strOrDefault matched.label "INFO"),
             reason := matched.reason,
             final_label := final,
             code := rec?.bind (fun r => r.code) }

/-- The corpus loop: counts plus result rows. -/
def applyCore (rules : List Rule) (urls : List String)
    (enrich : List (String × EnrichRec)) (demote_blocked demote_404 : Bool) :
    Counts × List Row :=
  urls.foldl
    (fun acc url =>
      match classifyUrl rules enrich demote_blocked demote_404 url with
      | some row => (bumpCount acc.1 row.final_label, acc.2 ++ [row])
      | none => acc)
    ({}, [])

/-- Embeds `ai_rules.py::_balanced_sample`.  `random.shuffle` of each
severity bucket is modelled by the explicit permutation parameter
`shuffle` (one classification run corresponds to one such parameter;
labels outside `LABELS` have quota 0 and contribute nothing, as in the
source). -/
def _balanced_sample (shuffle : List Row → List Row) (rows : List Row)
    (max_total : Nat := 1000) : List Row :=
  let quota := fun k =>
    if k = "HIGH" then max_total / 10
    else if k = "MEDIUM" then max_total / 3
    else if k = "LOW" then max_total / 3
    else max_total - max_total / 10 - (max_total / 3) * 2
  let out := LABELS.foldl
    (fun out k =>
      out ++
        ((shuffle (rows.filter (fun r => r.final_label = k))).take (quota k)))
    []
  out.take max_total

/-- The output of one `ai_rules.py::apply_rules` run (summary counts and
the sampled rows; the file-path fields of the summary are omitted). -/
structure ApplyOut where
  counts : Counts
  total_classified : Nat
  total_source : Nat
  results_sample : List Row
deriving DecidableEq, Repr

/-- Embeds `ai_rules.py::apply_rules` on an already-loaded corpus,
rule list and enrichment map. -/
def apply_rules (rules : List Rule) (urls : List String)
    (enrich : List (String × EnrichRec)) (demote_blocked demote_404 : Bool)
    (shuffle : List Row → List Row) : ApplyOut :=
  let cr := applyCore rules urls enrich demote_blocked demote_404
  { counts := cr.1,
    total_classified := cr.1.high + cr.1.medium + cr.1.low + cr.1.info,
    total_source := urls.length,
    results_sample := _balanced_sample shuffle cr.2 1000 }

/-- Embeds the merge loop of `ai_rules.py::load_rules` for one source:
every rule with a truthy id is assigned into the id-keyed dict. -/
def mergeById (rules : List Rule) (m : List (String × Rule)) :
    List (String × Rule) :=
  rules.foldl (fun m r => if r.id ≠ "" then alistInsert m r.id r else m) m

/-- The merged dict of `ai_rules.py::load_rules`: seed first, then
custom (later assignments replace earlier ones per id). -/
def load_rules_merged (seed custom : List Rule) : List (String × Rule) :=
  mergeById custom (mergeById seed [])

/-- Embeds `ai_rules.py::load_rules` (the compiled list is the merged
dict's values; `_compile_rule` is the identity here because matchers are
already functions and `method` is already a list). -/
def load_rules (seed custom : List Rule) : List Rule :=
  (load_rules_merged seed custom).map (fun kv => kv.2)

end AiRules

/-! ## Probers (`tools/probe_urls.py`, `tools/probe_paths.py`,
`tools/probe_subdomains.py`)

Network I/O is modelled by an explicit outcome per HTTP attempt: either a
response (status, size, content type, final URL, and the title the
bounded `<title>` scan would extract) or a raised exception with its
message.  Timestamps are modelled as integers (`probe_paths` stores an
ISO string in `last_probe`; only its value as an opaque token matters
here). -/

namespace Probe

/-- Outcome of one HTTP attempt. -/
inductive Outcome
  | response (status : Int) (size : Nat) (ctype : Option String)
      (final_url : String) (title : Option String)
  | failure (err : String)
deriving DecidableEq, Repr

/-- An enrichment record as built by the URL/path probers.
`first_seen = none` models the key being absent from the dict. -/
structure UrlRec where
  alive : Bool := false
  code : Option Int := none
  size : Option Nat := none
  title : Option String := none
  content_type : Option String := none
  final_url : String := ""
  last_probe : Int := 0
  mode : String := ""
  error : Option String := none
  sources : List String := []
  first_seen : Option Int := none
deriving DecidableEq, Repr

/-- The fresh record initialized at the top of each attempt of
`probe_urls.py::fetch_url` (lines 56–66). -/
def freshRec (url : String) (now : Int) (mode : String) : UrlRec :=
  { final_url := url, last_probe := now, mode := mode }

/-- One attempt of `probe_urls.py::fetch_url`: on a response,
`alive = status < 500`; on an exception, only `error` is filled in. -/
def fetchUrlAttempt (url : String) (now : Int) (mode : String) :
    Outcome → UrlRec
  | .response st sz ct fu ttl =>
      { freshRec url now mode with
        alive := decide (st < 500), code := some st, size := some sz,
        content_type := ct, final_url := fu, title := ttl }
  | .failure e => { freshRec url now mode with error := some e }

/-- Embeds the retry loop of `probe_urls.py::fetch_url` over the list of
attempt outcomes (one per `range(max(1, retries + 1))` iteration): the
first response returns immediately, otherwise the last failure record is
returned. -/
def fetch_url (url : String) (now : Int) (mode : String) :
    List Outcome → UrlRec
  | [] => freshRec url now mode
  | [o] => fetchUrlAttempt url now mode o
  | o :: rest =>
      match o with
      | .response _ _ _ _ _ => fetchUrlAttempt url now mode o
      | .failure _ => fetch_url url now mode rest

/-- Python set insertion used for `list(set(...) | new)`-style updates
(insertion order stands in for the set's arbitrary order). -/
def pySetAdd (l : List String) (s : String) : List String :=
  if l.contains s then l else l ++ [s]

/-- Python `x or y` on an optional int (`None` and `0` are falsy). -/
def pyOrInt (x : Option Int) (y : Int) : Int :=
  match x with
  | some v => if v ≠ 0 then v else y
  | none => y

/-- Embeds the metadata step of `probe_urls.py::_runner` (lines 155–159):
`rec["sources"] = list({*(rec.get("sources") or []), source})` and
`rec["first_seen"] = rec.get("first_seen") or int(time.time())` applied
to the fetched record before it is written into the module map. -/
def runnerFinalize (rec : UrlRec) (source : String) (now : Int) : UrlRec :=
  { rec with
    sources := pySetAdd rec.sources source,
    first_seen := some (pyOrInt rec.first_seen now) }

/-- Embeds `enrich_urls.py::merge_into_url_enrich` on in-memory maps:
`base.update(module_map)` — wholesale per-key overwrite. -/
def merge_into_url_enrich (base module_map : List (String × UrlRec)) :
    List (String × UrlRec) :=
  dictUpdate base module_map

/-- Embeds `probe_paths.py::fetch_path` record construction: on ANY
response the record gets `alive = True` (the source comments: a response
was obtained, even 4xx/5xx); on an `httpx.HTTPError`, `alive = False`
with the error message.  The sha1/snippet/redirects/latency extras are
not consulted by any claim and are omitted. -/
def fetch_path (url : String) (now : Int) (method : String) :
    Outcome → UrlRec
  | .response st sz ct fu ttl =>
      { alive := true, code := some st, size := some sz, title := ttl,
        content_type := ct, final_url := fu, last_probe := now,
        mode := method, error := none, sources := ["probe_paths"] }
  | .failure e =>
      { alive := false, code := none, size := none, title := none,
        content_type := none, final_url := url, last_probe := now,
        mode := method, error := some e, sources := ["probe_paths"] }

/-- Embeds the store update of `probe_paths.py::do_one` (lines 343–351):
carry `first_seen` forward from the previous record under the same key
(falling back to the batch default), then overwrite the key with the new
record. -/
def do_one_update (module_map : List (String × UrlRec))
    (first_seen_default : Int) (key : String) (rec : UrlRec) :
    List (String × UrlRec) :=
  let first_seen :=
    match alookup module_map key with
    | some prev => prev.first_seen.getD first_seen_default
    | none => first_seen_default
  alistInsert module_map key { rec with first_seen := some first_seen }

/-- The `ProbeResult` dataclass of `probe_subdomains.py`. -/
structure ProbeResult where
  host : String
  scheme : Option String
  alive : Bool
  code : Option Int
  size : Option Nat
  title : Option String
  content_type : Option String
  final_url : Option String
  duration_ms : Int
  error : Option String
  ips : List String
deriving DecidableEq, Repr

/-- Outcome of `probe_subdomains.py::head_or_get` for one scheme:
either meta data with a status code, or a failure message. -/
inductive HostAttempt
  | meta (code : Int) (ctype : Option String) (size : Option Nat)
      (final_url : String) (mode : String)
  | failed (mode err : String)
deriving DecidableEq, Repr

/-- Content-type check `ctype and "html" in ctype.lower()`. -/
def ctypeHasHtml : Option String → Bool
  | some s => s ≠ "" && AiRules.strContains (lowerStr s) "html"
  | none => false

/-- Embeds the per-scheme body of `probe_subdomains.py::probe_host`
(lines 168–194): with a status code, `alive = code < 500`; `title` is
only fetched for an HTML `GET` (`ttl` is what that fetch would return). -/
def schemeResult (host scheme : String) (ips : List String) (dur : Int)
    (ttl : Option String) : HostAttempt → ProbeResult
  | .meta code ctype size fu mode =>
      { host := host, scheme := some scheme, alive := decide (code < 500),
        code := some code, size := size,
        title := if mode = "GET" && ctypeHasHtml ctype then ttl else none,
        content_type := ctype, final_url := some fu, duration_ms := dur,
        error := none, ips := ips }
  | .failed _ err =>
      { host := host, scheme := some scheme, alive := false, code := none,
        size := none, title := none, content_type := none,
        final_url := none, duration_ms := dur, error := some err,
        ips := ips }

/-- Embeds the scheme loop of `probe_subdomains.py::probe_host`: the
first scheme that yields a status code wins (break); otherwise the last
failure result is kept; an empty scheme list gives the "unreachable"
fallback.  Each list entry is (scheme, attempt outcome, elapsed ms,
title the optional HTML fetch would return). -/
def probe_host (host : String) (ips : List String) :
    List (String × HostAttempt × Int × Option String) → ProbeResult
  | [] =>
      { host := host, scheme := none, alive := false, code := none,
        size := none, title := none, content_type := none,
        final_url := none, duration_ms := 0, error := some "unreachable",
        ips := ips }
  | (scheme, att, dur, ttl) :: rest =>
      match att with
      | .meta c ct sz fu m =>
          schemeResult host scheme ips dur ttl (.meta c ct sz fu m)
      | .failed m e =>
          match rest with
          | [] => schemeResult host scheme ips dur ttl (.failed m e)
          | _ :: _ => probe_host host ips rest

end Probe

/-! ## Snapshot readers of the enrichment store

File system and JSON parsing are modelled at their interface: a file is
`none` (missing) or `some contents`, and `json.loads` is an
`Option`-valued parse oracle (`none` models a raised
`JSONDecodeError`).  Each reader returns `Except`: `Except.error`
models an exception escaping to the caller. -/

namespace Readers

/-- Embeds the fresh-read path of
`enrich_urls.py::_read_json_memo` (lines 58–69): a missing file or a
parse failure yields the empty map (the memo layer only replays values
this path produced). -/
def enrich_read_json_memo {α : Type} (empty : α) (file : Option String)
    (parse : String → Option α) : Except String α :=
  match file with
  | none => .ok empty
  | some s => .ok ((parse s).getD empty)

/-- Embeds `ai_rules.py::_read_json`: same missing/corrupt handling. -/
def ai_rules_read_json {α : Type} (empty : α) (file : Option String)
    (parse : String → Option α) : Except String α :=
  match file with
  | none => .ok empty
  | some s => .ok ((parse s).getD empty)

/-- Embeds `ai_apply.py::_safe_load_json`: missing or corrupt gives
`None`. -/
def _safe_load_json {α : Type} (file : Option String)
    (parse : String → Option α) : Except String (Option α) :=
  .ok (file.bind parse)

/-- Embeds `url_cache.py::_load_json`: `FileNotFoundError` and any other
exception both give the empty dict. -/
def url_cache_load_json {α : Type} (empty : α) (file : Option String)
    (parse : String → Option α) : Except String α :=
  match file with
  | none => .ok empty
  | some s => .ok ((parse s).getD empty)

/-- Embeds `probe_paths.py::_read_json_memo` (lines 66–69): a missing
file gives the empty dict, but `json.loads` is NOT wrapped in
`try/except`, so a parse failure escapes to the caller. -/
def probe_paths_read_json_memo {α : Type} (empty : α)
    (file : Option String) (parse : String → Option α) :
    Except String α :=
  match file with
  | none => .ok empty
  | some s =>
      match parse s with
      | some v => .ok v
      | none => .error "json.loads raised JSONDecodeError"

/-- Embeds `probe_subdomains.py::read_json` (lines 38–42): a missing
file gives the caller-supplied default, but `json.load` is NOT wrapped
in `try/except`, so a parse failure escapes to the caller. -/
def subdomains_read_json {α : Type} (dflt : α) (file : Option String)
    (parse : String → Option α) : Except String α :=
  match file with
  | none => .ok dflt
  | some s =>
      match parse s with
      | some v => .ok v
      | none => .error "json.load raised JSONDecodeError"

end Readers

/-! ## Association-list lemmas -/

theorem alookup_nil {α : Type} (k : String) :
    alookup ([] : List (String × α)) k = none := rfl

theorem alookup_cons {α : Type} (x : String × α) (rest : List (String × α))
    (k : String) :
    alookup (x :: rest) k = if x.1 = k then some x.2 else alookup rest k := by
  by_cases h : x.1 = k <;> simp [alookup, List.find?, h]

theorem alookup_alistInsert_self {α : Type} (m : List (String × α))
    (k : String) (v : α) :
    alookup (alistInsert m k v) k = some v := by
  induction m with
  | nil => simp [alistInsert, alookup_cons]
  | cons x rest ih =>
      by_cases h : x.1 = k
      · simp [alistInsert, h, alookup_cons]
      · simp [alistInsert, h, alookup_cons, ih]

theorem alistInsert_cons_eq {α : Type} (x : String × α)
    (rest : List (String × α)) (k : String) (v : α) (hx : x.1 = k) :
    alistInsert (x :: rest) k v = (k, v) :: rest := by
  simp [alistInsert, hx]

theorem alistInsert_cons_ne {α : Type} (x : String × α)
    (rest : List (String × α)) (k : String) (v : α) (hx : ¬x.1 = k) :
    alistInsert (x :: rest) k v = x :: alistInsert rest k v := by
  simp [alistInsert, hx]

theorem alookup_alistInsert_ne {α : Type} (m : List (String × α))
    (k k' : String) (v : α) (h : k' ≠ k) :
    alookup (alistInsert m k v) k' = alookup m k' := by
  have hk : ¬k = k' := fun hh => h hh.symm
  induction m with
  | nil => simp [alistInsert, alookup_cons, alookup_nil, hk]
  | cons x rest ih =>
      by_cases hx : x.1 = k
      · rw [alistInsert_cons_eq x rest k v hx, alookup_cons, alookup_cons,
          if_neg hk, hx, if_neg hk]
      · rw [alistInsert_cons_ne x rest k v hx, alookup_cons, alookup_cons, ih]

theorem mem_keys_alistInsert {α : Type} (m : List (String × α))
    (k a : String) (v : α) (h : a ∈ (alistInsert m k v).map Prod.fst) :
    a = k ∨ a ∈ m.map Prod.fst := by
  induction m with
  | nil =>
      simp [alistInsert] at h
      exact Or.inl h
  | cons x rest ih =>
      by_cases hx : x.1 = k
      · rw [alistInsert_cons_eq x rest k v hx, List.map_cons,
          List.mem_cons] at h
        rcases h with h | h
        · exact Or.inl h
        · exact Or.inr (by rw [List.map_cons, List.mem_cons]; exact Or.inr h)
      · rw [alistInsert_cons_ne x rest k v hx, List.map_cons,
          List.mem_cons] at h
        rcases h with h | h
        · exact Or.inr (by rw [List.map_cons, List.mem_cons]; exact Or.inl h)
        · rcases ih h with h | h
          · exact Or.inl h
          · exact Or.inr
              (by rw [List.map_cons, List.mem_cons]; exact Or.inr h)

theorem nodup_keys_alistInsert {α : Type} (m : List (String × α))
    (k : String) (v : α) (h : (m.map Prod.fst).Nodup) :
    ((alistInsert m k v).map Prod.fst).Nodup := by
  induction m with
  | nil => simp [alistInsert]
  | cons x rest ih =>
      rw [List.map_cons, List.nodup_cons] at h
      by_cases hx : x.1 = k
      · rw [alistInsert_cons_eq x rest k v hx, List.map_cons,
          List.nodup_cons]
        exact ⟨by simpa [hx] using h.1, h.2⟩
      · rw [alistInsert_cons_ne x rest k v hx, List.map_cons,
          List.nodup_cons]
        refine ⟨?_, ih h.2⟩
        intro hmem
        rcases mem_keys_alistInsert rest k x.1 v hmem with hh | hh
        · exact hx hh
        · exact h.1 hh

theorem alookup_dictUpdate_not_mem {α : Type}
    (m : List (String × α)) (k : String)
    (h : ∀ kv ∈ m, kv.1 ≠ k) :
    ∀ base, alookup (dictUpdate base m) k = alookup base k := by
  induction m with
  | nil => intro base; rfl
  | cons x rest ih =>
      intro base
      have hx : x.1 ≠ k := h x (by simp)
      have := ih (fun kv hkv => h kv (by simp [hkv]))
        (alistInsert base x.1 x.2)
      simpa [dictUpdate, List.foldl_cons,
        alookup_alistInsert_ne base x.1 k x.2 (fun hh => hx hh.symm)]
        using this

theorem alookup_dictUpdate_mem {α : Type}
    (m : List (String × α)) (k : String) (v : α)
    (hm : (m.map Prod.fst).Nodup) (h : alookup m k = some v) :
    ∀ base, alookup (dictUpdate base m) k = some v := by
  induction m with
  | nil => simp [alookup_nil] at h
  | cons x rest ih =>
      intro base
      rw [List.map_cons, List.nodup_cons] at hm
      by_cases hx : x.1 = k
      · rw [alookup_cons, if_pos hx] at h
        have hrest : ∀ kv ∈ rest, kv.1 ≠ k := by
          intro kv hkv heq
          refine hm.1 ?_
          have hmm := List.mem_map_of_mem Prod.fst hkv
          rwa [heq, ← hx] at hmm
        have := alookup_dictUpdate_not_mem rest k hrest
          (alistInsert base x.1 x.2)
        simp only [dictUpdate, List.foldl_cons] at this ⊢
        rw [this, hx, alookup_alistInsert_self, h]
      · rw [alookup_cons, if_neg hx] at h
        simpa [dictUpdate, List.foldl_cons] using
          ih hm.2 h (alistInsert base x.1 x.2)

/-! ## C3 — scope-filter precedence -/

/-- C3 counterexample: host `a.example.com` matches the deny pattern
`a.example.com`, yet `is_in_scope` returns `true` because a non-empty
allow list short-circuits the deny check.  The claimed precedence
"deny over allow" is therefore false for `core/scope.py::is_in_scope`. -/
theorem scope_deny_over_allow_counterexample :
    matches_any "a.example.com" ["a.example.com"] = true ∧
    is_in_scope "a.example.com" "example.com" ["a.*"] ["a.example.com"] =
      true := by
  exact ⟨by decide, by decide⟩

/-- C3 (amended): `core/scope.py::is_in_scope` applies the precedence
allow over deny over root-suffix: a non-empty allow list alone decides
membership (deny patterns are ignored), and a deny match excludes a host
only when no allow list is given. -/
theorem scope_filter_allow_first_precedence
    (host root : String) (allow deny : List String)
    (hallow : allow ≠ []) :
    is_in_scope host root allow deny = matches_any host allow ∧
    (matches_any host deny = true → deny ≠ [] →
      is_in_scope host root [] deny = false) := by
  constructor
  · simp [is_in_scope, hallow]
  · intro hd hne
    simp [is_in_scope, hd, hne]

/-- Witness for `scope_filter_allow_first_precedence` at concrete
inputs. -/
theorem scope_filter_allow_first_precedence_witness :
    is_in_scope "a.example.com" "example.com" ["a.*"] ["a.example.com"] =
      matches_any "a.example.com" ["a.*"] ∧
    is_in_scope "b.example.com" "example.com" [] ["b.*"] = false := by
  refine ⟨(scope_filter_allow_first_precedence "a.example.com"
    "example.com" ["a.*"] ["a.example.com"] (by decide)).1, ?_⟩
  exact (scope_filter_allow_first_precedence "b.example.com" "example.com"
    ["a.*"] ["b.*"] (by decide)).2 (by decide) (by decide)

/-! ## C8 — snapshot-read error handling -/

/-- C8 counterexample: with file contents `json.loads` cannot parse
(the parse oracle returns `none`), `probe_paths.py::_read_json_memo`
and `probe_subdomains.py::read_json` propagate the exception instead of
returning an empty map, so "no read of a cache/snapshot file raises an
error to the caller" is false. -/
theorem snapshot_read_raises_counterexample :
    Readers.probe_paths_read_json_memo (α := List (String × Int)) []
        (some "not json") (fun _ => none) =
      Except.error "json.loads raised JSONDecodeError" ∧
    Readers.subdomains_read_json (α := List (String × Int)) []
        (some "not json") (fun _ => none) =
      Except.error "json.load raised JSONDecodeError" := by
  exact ⟨rfl, rfl⟩

/-- C8 (amended): the snapshot readers of `enrich_urls.py`,
`ai_rules.py`, `ai_apply.py` and `url_cache.py` yield the empty map (or
`None`) for a missing file and for contents that fail to parse, and
never raise; the readers of `probe_paths.py` and `probe_subdomains.py`
yield the empty default only for a missing file and propagate a parse
failure to the caller. -/
theorem snapshot_readers_error_policy {α : Type} (empty : α)
    (parse : String → Option α) (s : String) (hbad : parse s = none) :
    Readers.enrich_read_json_memo empty none parse = .ok empty ∧
    Readers.enrich_read_json_memo empty (some s) parse = .ok empty ∧
    (∀ file, ∃ v, Readers.enrich_read_json_memo empty file parse = .ok v) ∧
    Readers.ai_rules_read_json empty none parse = .ok empty ∧
    Readers.ai_rules_read_json empty (some s) parse = .ok empty ∧
    Readers._safe_load_json none parse = .ok none ∧
    Readers._safe_load_json (some s) parse = .ok none ∧
    Readers.url_cache_load_json empty none parse = .ok empty ∧
    Readers.url_cache_load_json empty (some s) parse = .ok empty ∧
    Readers.probe_paths_read_json_memo empty none parse = .ok empty ∧
    Readers.probe_paths_read_json_memo empty (some s) parse =
      .error "json.loads raised JSONDecodeError" ∧
    Readers.subdomains_read_json empty none parse = .ok empty ∧
    Readers.subdomains_read_json empty (some s) parse =
      .error "json.load raised JSONDecodeError" := by
  refine ⟨rfl, ?_, ?_, rfl, ?_, rfl, ?_, rfl, ?_, rfl, ?_, rfl, ?_⟩
  · simp [Readers.enrich_read_json_memo, hbad]
  · intro file
    cases file with
    | none => exact ⟨empty, rfl⟩
    | some t =>
        cases hp : parse t with
        | none => exact ⟨empty, by simp [Readers.enrich_read_json_memo, hp]⟩
        | some v => exact ⟨v, by simp [Readers.enrich_read_json_memo, hp]⟩
  · simp [Readers.ai_rules_read_json, hbad]
  · simp [Readers._safe_load_json, hbad]
  · simp [Readers.url_cache_load_json, hbad]
  · simp [Readers.probe_paths_read_json_memo, hbad]
  · simp [Readers.subdomains_read_json, hbad]

/-- Witness for `snapshot_readers_error_policy` at a concrete parse
oracle and file contents. -/
theorem snapshot_readers_error_policy_witness :
    Readers.enrich_read_json_memo (α := Nat) 0 (some "x")
      (fun _ => none) = .ok 0 := by
  exact (snapshot_readers_error_policy (α := Nat) 0 (fun _ => none) "x"
    rfl).2.1

/-! ## C10 — `code_in` filtering with absent codes -/

/-- C10: in the `ai_apply.py` apply path, a rule with a non-empty
`code_in` is never skipped when no HTTP code was observed; the filter
excludes a candidate exactly when an observed integer code lies outside
the rule's `code_in` set; and a matching rule with `code_in` set still
produces a best-match for a URL with no enrichment code. -/
theorem code_in_only_filters_observed_codes
    (r : AiApply.CompiledRule) (url : String)
    (opts : AiApply.ApplyOptions) (c : Int) (hmatch : r.regex url = true) :
    AiApply.codeInSkip r none = false ∧
    (AiApply.codeInSkip r (some c) = true ↔
      r.code_in ≠ [] ∧ r.code_in.contains c = false) ∧
    (AiApply.bestFor opts [r] url none).label.isSome = true := by
  refine ⟨?_, ?_, ?_⟩
  · simp [AiApply.codeInSkip]
  · simp [AiApply.codeInSkip, List.isEmpty_iff, Bool.not_eq_true']
  · simp [AiApply.bestFor, AiApply.stepRule, AiApply.codeInSkip, hmatch,
      AiApply.better]

/-- Witness for `code_in_only_filters_observed_codes`: a rule restricted
to code 200 still matches a URL with no observed code, and is skipped at
observed code 404. -/
theorem code_in_only_filters_observed_codes_witness :
    AiApply.codeInSkip
      { id := "r", label := "HIGH", reason := "", regex := fun _ => true,
        code_in := [200], source := "seed" } none = false ∧
    AiApply.codeInSkip
      { id := "r", label := "HIGH", reason := "", regex := fun _ => true,
        code_in := [200], source := "seed" } (some 404) = true := by
  have h := code_in_only_filters_observed_codes
    { id := "r", label := "HIGH", reason := "", regex := fun _ => true,
      code_in := [200], source := "seed" } "http://h/a" {} 404 rfl
  exact ⟨h.1, h.2.1.mpr (by decide)⟩

/-! ## C6 — demote-on-missing-code steps one tier -/

/-- C6: `ai_apply.py::_maybe_demote` steps HIGH→MEDIUM→LOW→INFO with
INFO fixed, and with the demote-on-missing-code option enabled a URL
with no observed HTTP code that is matched by a HIGH rule gets final
label MEDIUM. -/
theorem demote_missing_code_one_tier
    (r : AiApply.CompiledRule) (url : String)
    (opts : AiApply.ApplyOptions)
    (hmatch : r.regex url = true) (hdem : opts.demote_if_no_code = true)
    (hreq : opts.http_required = false) :
    (AiApply._maybe_demote "HIGH" = "MEDIUM" ∧
     AiApply._maybe_demote "MEDIUM" = "LOW" ∧
     AiApply._maybe_demote "LOW" = "INFO" ∧
     AiApply._maybe_demote "INFO" = "INFO") ∧
    (r.label = "HIGH" →
      (AiApply.classifyUrl opts [r] url none).map
        (fun row => row.final_label) = some "MEDIUM") := by
  refine ⟨⟨by decide, by decide, by decide, by decide⟩, ?_⟩
  intro hlab
  simp [AiApply.classifyUrl, hreq, AiApply.bestFor, AiApply.stepRule,
    AiApply.codeInSkip, hmatch, AiApply.effLabel, hdem, hlab,
    AiApply._maybe_demote, AiApply.better]

/-- Witness for `demote_missing_code_one_tier` at a concrete HIGH rule
and URL. -/
theorem demote_missing_code_one_tier_witness :
    (AiApply.classifyUrl {}
      [{ id := "r1", label := "HIGH", reason := "x",
         regex := fun _ => true, code_in := [], source := "seed" }]
      "http://h/a" none).map (fun row => row.final_label) =
      some "MEDIUM" := by
  exact (demote_missing_code_one_tier
    { id := "r1", label := "HIGH", reason := "x",
      regex := fun _ => true, code_in := [], source := "seed" }
    "http://h/a" {} rfl rfl rfl).2 rfl

/-! ## C4 — the alive policies of the three probers -/

/-- C4 counterexample: `probe_paths.py::fetch_path` records
`alive = True` for a 500 response (the claim says URL/path probing needs
`code < 500`), and `probe_subdomains.py::probe_host` records
`alive = False` for a 500 response (the claim says host-level probing
counts any obtained code as alive). -/
theorem alive_policy_counterexample :
    (Probe.fetch_path "http://h/x" 0 "GET"
      (.response 500 0 none "http://h/x" none)).alive = true ∧
    (Probe.probe_host "h" []
      [("https", .meta 500 none none "https://h" "HEAD", 5, none)]).alive =
      false := by
  exact ⟨by decide, by decide⟩

/-- C4 (amended): `probe_urls.py::fetch_url` and
`probe_subdomains.py::probe_host` record `alive = true` exactly when a
status code was obtained and the code is below 500, while
`probe_paths.py::fetch_path` records `alive = true` exactly when any
status code was obtained (5xx included). -/
theorem alive_policies_per_prober :
    (∀ (url : String) (now : Int) (mode : String)
        (outcomes : List Probe.Outcome),
      (Probe.fetch_url url now mode outcomes).alive = true ↔
        ∃ c, (Probe.fetch_url url now mode outcomes).code = some c ∧
          c < 500) ∧
    (∀ (url : String) (now : Int) (method : String) (o : Probe.Outcome),
      (Probe.fetch_path url now method o).alive = true ↔
        ∃ c, (Probe.fetch_path url now method o).code = some c) ∧
    (∀ (host : String) (ips : List String)
        (atts : List (String × Probe.HostAttempt × Int × Option String)),
      (Probe.probe_host host ips atts).alive = true ↔
        ∃ c, (Probe.probe_host host ips atts).code = some c ∧ c < 500) := by
  refine ⟨?_, ?_, ?_⟩
  · intro url now mode outcomes
    induction outcomes with
    | nil => simp [Probe.fetch_url, Probe.freshRec]
    | cons o rest ih =>
        cases rest with
        | nil =>
            cases o with
            | response st sz ct fu ttl =>
                simp [Probe.fetch_url, Probe.fetchUrlAttempt, Probe.freshRec]
            | failure e =>
                simp [Probe.fetch_url, Probe.fetchUrlAttempt, Probe.freshRec]
        | cons r rs =>
            cases o with
            | response st sz ct fu ttl =>
                simp [Probe.fetch_url, Probe.fetchUrlAttempt, Probe.freshRec]
            | failure e =>
                simpa [Probe.fetch_url] using ih
  · intro url now method o
    cases o with
    | response st sz ct fu ttl => simp [Probe.fetch_path]
    | failure e => simp [Probe.fetch_path]
  · intro host ips atts
    induction atts with
    | nil => simp [Probe.probe_host]
    | cons a rest ih =>
        obtain ⟨scheme, att, dur, ttl⟩ := a
        cases att with
        | meta c ct sz fu m =>
            simp [Probe.probe_host, Probe.schemeResult]
        | failed m e =>
            cases rest with
            | nil => simp [Probe.probe_host, Probe.schemeResult]
            | cons r rs => simpa [Probe.probe_host] using ih

/-- Witness for `alive_policies_per_prober` at concrete probe
outcomes. -/
theorem alive_policies_per_prober_witness :
    (∃ c, (Probe.fetch_url "http://h/x" 0 "GET"
      [.response 404 3 none "http://h/x" none]).code = some c ∧
        c < 500) ∧
    (∃ c, (Probe.fetch_path "http://h/x" 0 "GET"
      (.response 500 0 none "http://h/x" none)).code = some c) := by
  exact ⟨(alive_policies_per_prober.1 "http://h/x" 0 "GET"
      [.response 404 3 none "http://h/x" none]).mp (by decide),
    (alive_policies_per_prober.2.1 "http://h/x" 0 "GET"
      (.response 500 0 none "http://h/x" none)).mp (by decide)⟩

/-! ## C2 — `first_seen` across merges -/

/-- C2 counterexample: a key already stored with `first_seen = 100` is
probed again by the URL prober at time 200; the finalized record of
`probe_urls.py::_runner` resets `first_seen` to 200 (the fetched record
never carries one) and `merge_into_url_enrich` overwrites the stored
record wholesale, so the earliest `first_seen` (100) is NOT preserved. -/
theorem first_seen_reset_counterexample :
    ((alookup
      (Probe.merge_into_url_enrich
        [("http://h/x",
          ({ first_seen := some 100, alive := true, code := some 200 } :
            Probe.UrlRec))]
        [("http://h/x",
          Probe.runnerFinalize
            (Probe.fetch_url "http://h/x" 200 "GET"
              [.response 404 3 none "http://h/x" none])
            "sensitive_paths" 200)])
      "http://h/x").bind (fun r => r.first_seen)) = some 200 := by
  decide

/-- C2 (amended): the path prober preserves `first_seen` — when the
module map already holds the key with `first_seen = t₀`,
`probe_paths.py::do_one` stores the new probe record with every field
from the new probe except `first_seen`, which stays `t₀`, and merging
the module map into the global snapshot keeps exactly that record; the
URL prober (`probe_urls.py::_runner`) instead resets `first_seen` to the
latest probe time, as the counterexample shows. -/
theorem probe_paths_merge_preserves_first_seen
    (m base : List (String × Probe.UrlRec)) (dflt t0 : Int)
    (k : String) (prev rec0 : Probe.UrlRec)
    (hnodup : (m.map Prod.fst).Nodup)
    (hprev : alookup m k = some prev) (hfs : prev.first_seen = some t0) :
    alookup (Probe.do_one_update m dflt k rec0) k =
      some { rec0 with first_seen := some t0 } ∧
    alookup (Probe.merge_into_url_enrich base
        (Probe.do_one_update m dflt k rec0)) k =
      some { rec0 with first_seen := some t0 } := by
  have h1 : Probe.do_one_update m dflt k rec0 =
      alistInsert m k { rec0 with first_seen := some t0 } := by
    simp [Probe.do_one_update, hprev, hfs]
  have h2 : alookup (Probe.do_one_update m dflt k rec0) k =
      some { rec0 with first_seen := some t0 } := by
    rw [h1]; exact alookup_alistInsert_self m k _
  refine ⟨h2, ?_⟩
  have hnd : ((Probe.do_one_update m dflt k rec0).map Prod.fst).Nodup := by
    rw [h1]; exact nodup_keys_alistInsert m k _ hnodup
  have := alookup_dictUpdate_mem (Probe.do_one_update m dflt k rec0) k
    _ hnd h2 base
  simpa [Probe.merge_into_url_enrich] using this

/-- Witness for `probe_paths_merge_preserves_first_seen` at a concrete
store state and second probe record. -/
theorem probe_paths_merge_preserves_first_seen_witness :
    alookup (Probe.do_one_update
      [("http://h/x", ({ first_seen := some 5 } : Probe.UrlRec))] 9
      "http://h/x" { alive := true, code := some 200 }) "http://h/x" =
      some { alive := true, code := some 200, first_seen := some 5 } := by
  exact (probe_paths_merge_preserves_first_seen
    [("http://h/x", { first_seen := some 5 })] [] 9 5 "http://h/x"
    { first_seen := some 5 } { alive := true, code := some 200 }
    (by simp) (by decide) rfl).1

/-! ## C5 — determinism of one classification run -/

/-- C5 counterexample: two runs of `ai_rules.py::apply_rules` on the
same corpus, rules and enrichment differ when `random.shuffle` permutes
a severity bucket differently (here: identity versus reversal), because
`results_sample` depends on the shuffle; identical output across runs is
therefore false. -/
theorem classification_output_shuffle_counterexample :
    AiRules.apply_rules
      [{ id := "r", label := "INFO", reason := "", rmatch := fun _ => true }]
      ["http://h/a", "http://h/b"] [] true true (fun l => l) ≠
    AiRules.apply_rules
      [{ id := "r", label := "INFO", reason := "", rmatch := fun _ => true }]
      ["http://h/a", "http://h/b"] [] true true List.reverse := by
  decide

/-- C5 (amended): the summary of one `ai_rules.py::apply_rules` run —
the per-label counts, `total_classified` and `total_source` — is a pure
function of corpus, rules and enrichment, independent of the
`random.shuffle` permutations used by `_balanced_sample`; only
`results_sample` varies between runs. -/
theorem classification_counts_deterministic
    (rules : List AiRules.Rule) (urls : List String)
    (enrich : List (String × AiRules.EnrichRec)) (db d404 : Bool)
    (shuf1 shuf2 : List AiRules.Row → List AiRules.Row) :
    (AiRules.apply_rules rules urls enrich db d404 shuf1).counts =
      (AiRules.apply_rules rules urls enrich db d404 shuf2).counts ∧
    (AiRules.apply_rules rules urls enrich db d404 shuf1).total_classified
      = (AiRules.apply_rules rules urls enrich db d404
          shuf2).total_classified ∧
    (AiRules.apply_rules rules urls enrich db d404 shuf1).total_source =
      (AiRules.apply_rules rules urls enrich db d404 shuf2).total_source :=
  ⟨rfl, rfl, rfl⟩

/-! ## C1 — rule selection by priority tuple -/

theorem lexLe_refl (t : Nat × Nat) : AiApply.lexLe t t := by
  unfold AiApply.lexLe; omega

theorem lexLe_trans {a b c : Nat × Nat} (h1 : AiApply.lexLe a b)
    (h2 : AiApply.lexLe b c) : AiApply.lexLe a c := by
  unfold AiApply.lexLe at *; omega

theorem better_false_lexLe (t : Nat × Nat) (lab src : String)
    (h : AiApply.better (some t) lab src = false) :
    AiApply.lexLe
      (AiApply._severity_weight lab, AiApply.sourcePriorityOf src) t := by
  obtain ⟨a, b⟩ := t
  by_cases hs : AiApply._severity_weight lab = a
  · simp [AiApply.better, hs] at h
    exact Or.inr ⟨hs, by omega⟩
  · simp [AiApply.better, hs] at h
    exact Or.inl (by omega)

theorem stepRule_cases (opts : AiApply.ApplyOptions) (url : String)
    (code_i : Option Int) (st : AiApply.Best) (r : AiApply.CompiledRule) :
    AiApply.stepRule opts url code_i st r = st ∨
    (AiApply.eligible url code_i r = true ∧
     AiApply.stepRule opts url code_i st r =
       { tuple := some (AiApply.candTuple opts code_i r),
         label := some (AiApply.effLabel opts code_i r),
         reason := some r.reason, src_tag := some r.source,
         rule_id := some r.id } ∧
     AiApply.better st.tuple (AiApply.effLabel opts code_i r) r.source =
       true) := by
  unfold AiApply.stepRule
  by_cases h1 : AiApply.codeInSkip r code_i
  · simp [h1]
  · by_cases h2 : r.regex url
    · by_cases h3 :
        AiApply.better st.tuple (AiApply.effLabel opts code_i r) r.source
      · exact Or.inr ⟨by simp [AiApply.eligible, h1, h2],
          by simp [h1, h2, h3, AiApply.candTuple], h3⟩
      · simp [h1, h2, h3]
    · simp [h1, h2]

theorem stepRule_self_of_eligible (opts : AiApply.ApplyOptions)
    (url : String) (code_i : Option Int) (st : AiApply.Best)
    (r : AiApply.CompiledRule)
    (he : AiApply.eligible url code_i r = true)
    (heq : AiApply.stepRule opts url code_i st r = st) :
    ∃ t, st.tuple = some t ∧
      AiApply.lexLe (AiApply.candTuple opts code_i r) t := by
  have he' := he
  unfold AiApply.eligible at he'
  rw [Bool.and_eq_true] at he'
  obtain ⟨hskip, hregex⟩ := he'
  have h1 : AiApply.codeInSkip r code_i = false := by
    rwa [Bool.not_eq_true'] at hskip
  unfold AiApply.stepRule at heq
  rw [if_neg (by simp [h1]), if_neg (by simp [hregex])] at heq
  by_cases hb :
      AiApply.better st.tuple (AiApply.effLabel opts code_i r) r.source
  · rw [if_pos hb] at heq
    refine ⟨AiApply.candTuple opts code_i r, ?_, lexLe_refl _⟩
    rw [← heq]
    rfl
  · cases ht : st.tuple with
    | none => rw [ht] at hb; simp [AiApply.better] at hb
    | some t =>
        rw [ht] at hb
        rw [Bool.not_eq_true] at hb
        exact ⟨t, rfl, better_false_lexLe t _ _ hb⟩

theorem bestFor_tuple_mono (opts : AiApply.ApplyOptions) (url : String)
    (code_i : Option Int) (rules : List AiApply.CompiledRule) :
    ∀ (st : AiApply.Best) (t : Nat × Nat), st.tuple = some t →
      ∃ t₂, (rules.foldl (AiApply.stepRule opts url code_i) st).tuple =
        some t₂ ∧ AiApply.lexLe t t₂ := by
  induction rules with
  | nil => intro st t ht; exact ⟨t, ht, lexLe_refl t⟩
  | cons a rest ih =>
      intro st t ht
      simp only [List.foldl_cons]
      rcases stepRule_cases opts url code_i st a with heq | ⟨hel, heq, hbet⟩
      · rw [heq]; exact ih st t ht
      · rw [heq]
        obtain ⟨t₂, h2, hle⟩ := ih
          { tuple := some (AiApply.candTuple opts code_i a),
            label := some (AiApply.effLabel opts code_i a),
            reason := some a.reason, src_tag := some a.source,
            rule_id := some a.id }
          (AiApply.candTuple opts code_i a) rfl
        refine ⟨t₂, h2, ?_⟩
        rw [ht] at hbet
        refine lexLe_trans ?_ hle
        unfold AiApply.better at hbet
        unfold AiApply.candTuple
        obtain ⟨x, y⟩ := t
        by_cases hs :
            AiApply._severity_weight (AiApply.effLabel opts code_i a) = x
        · simp [hs] at hbet
          exact Or.inr ⟨hs.symm, by omega⟩
        · simp [hs] at hbet
          exact Or.inl (by omega)

theorem bestFor_tuple_bound (opts : AiApply.ApplyOptions) (url : String)
    (code_i : Option Int) (rules : List AiApply.CompiledRule) :
    ∀ (st : AiApply.Best) (r : AiApply.CompiledRule), r ∈ rules →
      AiApply.eligible url code_i r = true →
      ∃ t₂, (rules.foldl (AiApply.stepRule opts url code_i) st).tuple =
        some t₂ ∧ AiApply.lexLe (AiApply.candTuple opts code_i r) t₂ := by
  induction rules with
  | nil => intro st r hr; exact absurd hr (List.not_mem_nil r)
  | cons a rest ih =>
      intro st r hr he
      simp only [List.foldl_cons]
      rcases List.mem_cons.mp hr with rfl | hr
      · rcases stepRule_cases opts url code_i st r with heq | ⟨_, heq, _⟩
        · rw [heq]
          obtain ⟨t, ht, hle⟩ :=
            stepRule_self_of_eligible opts url code_i st r he heq
          obtain ⟨t₂, h2, hle2⟩ := bestFor_tuple_mono opts url code_i rest
            st t ht
          exact ⟨t₂, h2, lexLe_trans hle hle2⟩
        · rw [heq]
          obtain ⟨t₂, h2, hle2⟩ := bestFor_tuple_mono opts url code_i rest
            { tuple := some (AiApply.candTuple opts code_i r),
              label := some (AiApply.effLabel opts code_i r),
              reason := some r.reason, src_tag := some r.source,
              rule_id := some r.id }
            (AiApply.candTuple opts code_i r) rfl
          exact ⟨t₂, h2, hle2⟩
      · exact ih _ r hr he

theorem bestFor_realized (opts : AiApply.ApplyOptions) (url : String)
    (code_i : Option Int) (all : List AiApply.CompiledRule) :
    ∀ (rules : List AiApply.CompiledRule) (st : AiApply.Best),
      (∀ r, r ∈ rules → r ∈ all) →
      (∀ t, st.tuple = some t →
        ∃ r₂, r₂ ∈ all ∧ AiApply.eligible url code_i r₂ = true ∧
          AiApply.candTuple opts code_i r₂ = t ∧
          st.label = some (AiApply.effLabel opts code_i r₂) ∧
          st.src_tag = some r₂.source ∧ st.rule_id = some r₂.id) →
      ∀ t,
        (rules.foldl (AiApply.stepRule opts url code_i) st).tuple =
          some t →
        ∃ r₂, r₂ ∈ all ∧ AiApply.eligible url code_i r₂ = true ∧
          AiApply.candTuple opts code_i r₂ = t ∧
          (rules.foldl (AiApply.stepRule opts url code_i) st).label =
            some (AiApply.effLabel opts code_i r₂) ∧
          (rules.foldl (AiApply.stepRule opts url code_i) st).src_tag =
            some r₂.source ∧
          (rules.foldl (AiApply.stepRule opts url code_i) st).rule_id =
            some r₂.id := by
  intro rules
  induction rules with
  | nil => intro st _ hst; exact hst
  | cons a rest ih =>
      intro st hsub hst
      simp only [List.foldl_cons]
      refine ih (AiApply.stepRule opts url code_i st a)
        (fun r hr => hsub r (List.mem_cons_of_mem a hr)) ?_
      rcases stepRule_cases opts url code_i st a with heq | ⟨hel, heq, _⟩
      · rw [heq]; exact hst
      · rw [heq]
        intro t ht
        simp only [Option.some_inj] at ht
        exact ⟨a, hsub a (List.mem_cons_self a rest), hel, ht, rfl, rfl, rfl⟩

/-- C1 counterexample: in the first-match engine
(`ai_rules.py::apply_rules`), a URL matched by both a MEDIUM rule and a
HIGH rule keeps the MEDIUM rule because it comes first in iteration
order — the kept rule does not maximize the severity tuple, refuting the
claim for this cited engine. -/
theorem first_match_engine_counterexample :
    AiRules._matches_rule "http://h/admin" none
      { id := "high", label := "HIGH", reason := "h",
        rmatch := fun _ => true } = true ∧
    (AiRules.classifyUrl
      [{ id := "med", label := "MEDIUM", reason := "m",
         rmatch := fun _ => true },
       { id := "high", label := "HIGH", reason := "h",
         rmatch := fun _ => true }]
      [] true true "http://h/admin").map
        (fun row => (row.rule_id, row.final_label)) =
      some ("med", "MEDIUM") ∧
    AiApply._severity_weight "MEDIUM" < AiApply._severity_weight "HIGH" := by
  exact ⟨by decide, by decide, by decide⟩

/-- C1 (amended): in the engine of `ai_apply.py::apply_rules`, the
per-URL winner maximizes the priority tuple
`(severity weight of the effective label, source priority)` with
HIGH=4, MEDIUM=3, LOW=2, INFO=1 and custom=3, ai=2, seed=1: every
eligible rule's tuple is lexicographically bounded by the winner's
tuple, and the winner's label/source/rule id are realized by some
eligible rule attaining that tuple, so a severity tie is broken by
source priority (iteration order matters only between candidates with
identical tuples).  The first-match engine of `ai_rules.py` instead
keeps the first matching rule in load order (see the
counterexample). -/
theorem priority_tuple_selection
    (opts : AiApply.ApplyOptions) (rules : List AiApply.CompiledRule)
    (url : String) (code_i : Option Int) (r : AiApply.CompiledRule)
    (hr : r ∈ rules) (he : AiApply.eligible url code_i r = true) :
    ∃ t, (AiApply.bestFor opts rules url code_i).tuple = some t ∧
      AiApply.lexLe (AiApply.candTuple opts code_i r) t ∧
      ∃ r₂, r₂ ∈ rules ∧ AiApply.eligible url code_i r₂ = true ∧
        AiApply.candTuple opts code_i r₂ = t ∧
        (AiApply.bestFor opts rules url code_i).label =
          some (AiApply.effLabel opts code_i r₂) ∧
        (AiApply.bestFor opts rules url code_i).src_tag =
          some r₂.source ∧
        (AiApply.bestFor opts rules url code_i).rule_id =
          some r₂.id := by
  obtain ⟨t, ht, hle⟩ :=
    bestFor_tuple_bound opts url code_i rules {} r hr he
  refine ⟨t, ht, hle, ?_⟩
  exact bestFor_realized opts url code_i rules rules {} (fun _ h => h)
    (fun t' ht' => Option.noConfusion ht') t ht

/-- Witness for `priority_tuple_selection`: a URL matched by a HIGH seed
rule and a MEDIUM custom rule (with an observed code) resolves to HIGH —
severity wins over source priority, and the MEDIUM custom tuple (3, 3)
is bounded by the winning tuple (4, 1). -/
theorem priority_tuple_selection_witness :
    (AiApply.bestFor {} [AiApply.ruleHighSeed, AiApply.ruleMediumCustom]
      "http://h/x" (some 200)).tuple = some (4, 1) ∧
    (AiApply.bestFor {} [AiApply.ruleHighSeed, AiApply.ruleMediumCustom]
      "http://h/x" (some 200)).label = some "HIGH" ∧
    AiApply.lexLe (AiApply.candTuple {} (some 200) AiApply.ruleMediumCustom)
      (4, 1) := by
  have h := priority_tuple_selection {}
    [AiApply.ruleHighSeed, AiApply.ruleMediumCustom] "http://h/x"
    (some 200) AiApply.ruleMediumCustom
    (List.mem_cons_of_mem _ (List.mem_cons_self _ _)) (by decide)
  obtain ⟨t, ht, hle, _⟩ := h
  have htuple : (AiApply.bestFor {}
      [AiApply.ruleHighSeed, AiApply.ruleMediumCustom]
      "http://h/x" (some 200)).tuple = some (4, 1) := by decide
  rw [htuple] at ht
  obtain rfl : (4, 1) = t := Option.some_inj.mp ht
  exact ⟨htuple, by decide, hle⟩

/-! ## C7 — duplicate rule ids across sources -/

theorem mergeById_cons (r : AiRules.Rule) (rest : List AiRules.Rule)
    (m : List (String × AiRules.Rule)) :
    AiRules.mergeById (r :: rest) m =
      AiRules.mergeById rest
        (if r.id ≠ "" then alistInsert m r.id r else m) := rfl

theorem mem_alistInsert {α : Type} (m : List (String × α)) (k : String)
    (v : α) (kv : String × α) (h : kv ∈ alistInsert m k v) :
    kv = (k, v) ∨ kv ∈ m := by
  induction m with
  | nil => simp [alistInsert] at h; exact Or.inl h
  | cons x rest ih =>
      by_cases hx : x.1 = k
      · rw [alistInsert_cons_eq x rest k v hx, List.mem_cons] at h
        rcases h with h | h
        · exact Or.inl h
        · exact Or.inr (List.mem_cons_of_mem x h)
      · rw [alistInsert_cons_ne x rest k v hx, List.mem_cons] at h
        rcases h with h | h
        · exact Or.inr (h ▸ List.mem_cons_self x rest)
        · rcases ih h with h | h
          · exact Or.inl h
          · exact Or.inr (List.mem_cons_of_mem x h)

theorem alookup_mergeById (id : String) (hid : id ≠ "") :
    ∀ (rules : List AiRules.Rule) (m : List (String × AiRules.Rule)),
      alookup (AiRules.mergeById rules m) id =
        rules.foldl (fun acc r => if r.id = id then some r else acc)
          (alookup m id) := by
  intro rules
  induction rules with
  | nil => intro m; rfl
  | cons r rest ih =>
      intro m
      rw [mergeById_cons, List.foldl_cons]
      by_cases hr : r.id = id
      · have hne : r.id ≠ "" := hr ▸ hid
        rw [if_pos hne, ih, if_pos hr, hr, alookup_alistInsert_self]
      · by_cases hne : r.id ≠ ""
        · rw [if_pos hne, ih, if_neg hr,
            alookup_alistInsert_ne m r.id id r (fun hh => hr hh.symm)]
        · rw [if_neg hne, ih, if_neg hr]

theorem nodup_keys_mergeById :
    ∀ (rules : List AiRules.Rule) (m : List (String × AiRules.Rule)),
      (m.map Prod.fst).Nodup →
      ((AiRules.mergeById rules m).map Prod.fst).Nodup := by
  intro rules
  induction rules with
  | nil => intro m h; exact h
  | cons r rest ih =>
      intro m h
      rw [mergeById_cons]
      by_cases hne : r.id ≠ ""
      · rw [if_pos hne]
        exact ih _ (nodup_keys_alistInsert m r.id r h)
      · rw [if_neg hne]
        exact ih _ h

theorem mergeById_binding_invariant :
    ∀ (rules : List AiRules.Rule) (m : List (String × AiRules.Rule)),
      (∀ kv ∈ m, (kv.2.id : String) = kv.1) →
      ∀ kv ∈ AiRules.mergeById rules m, (kv.2.id : String) = kv.1 := by
  intro rules
  induction rules with
  | nil => intro m h; exact h
  | cons r rest ih =>
      intro m h
      rw [mergeById_cons]
      by_cases hne : r.id ≠ ""
      · rw [if_pos hne]
        refine ih _ ?_
        intro kv hkv
        rcases mem_alistInsert m r.id r kv hkv with heq | hmem
        · rw [heq]
        · exact h kv hmem
      · rw [if_neg hne]
        exact ih _ h

theorem foldl_if_eq_getLast_filter (id : String) :
    ∀ (l : List AiRules.Rule) (acc : Option AiRules.Rule),
      l.foldl (fun acc r => if r.id = id then some r else acc) acc =
        match (l.filter (fun r => r.id = id)).getLast? with
        | some r => some r
        | none => acc := by
  intro l
  induction l with
  | nil => intro acc; rfl
  | cons r rest ih =>
      intro acc
      rw [List.foldl_cons]
      by_cases hr : r.id = id
      · rw [if_pos hr, ih, List.filter_cons_of_pos (by simp [hr]),
          List.getLast?_cons]
        cases (rest.filter (fun r => r.id = id)).getLast? with
        | none => rfl
        | some x => rfl
      · rw [if_neg hr, ih, List.filter_cons_of_neg (by simp [hr])]

/-- C7 counterexample: in `ai_apply.py::apply_rules` the selected
sources are compiled and concatenated with no per-id dedup, so a rule id
appearing in both the seed and the custom source yields a compiled rule
set with two rules of that id — "the compiled rule set contains at most
one rule per id" is false for this cited load path (its conflicts are
resolved at match time by the priority tuple). -/
theorem duplicate_rule_ids_counterexample :
    (AiApply.rules_all
      [{ id := "dup", label := "HIGH", reason := "s",
         pattern := fun _ => true, code_in := [] }]
      [{ id := "dup", label := "LOW", reason := "c",
         pattern := fun _ => true, code_in := [] }]
      []).map (fun r => (r.id, r.source)) =
      [("dup", "seed"), ("dup", "custom")] := by
  rfl

/-- C7 (amended): `ai_rules.py::load_rules` resolves duplicate ids at
load time — the compiled list has pairwise-distinct ids, and the merged
dict's entry for an id is the LAST definition with that id across
seed-then-custom load order, so a custom definition replaces a seed
definition of the same id entirely; the loader of `ai_apply.py` instead
concatenates the compiled sources (see the counterexample) and resolves
conflicts at match time. -/
theorem later_source_wins_at_load (seed custom : List AiRules.Rule)
    (id : String) (hid : id ≠ "") :
    ((AiRules.load_rules seed custom).map (fun r => r.id)).Nodup ∧
    alookup (AiRules.load_rules_merged seed custom) id =
      ((seed ++ custom).filter (fun r => r.id = id)).getLast? := by
  constructor
  · have hnd : ((AiRules.load_rules_merged seed custom).map
        Prod.fst).Nodup :=
      nodup_keys_mergeById custom _
        (nodup_keys_mergeById seed [] (by simp))
    have hinv : ∀ kv ∈ AiRules.load_rules_merged seed custom,
        (kv.2.id : String) = kv.1 :=
      mergeById_binding_invariant custom _
        (mergeById_binding_invariant seed [] (by simp))
    have hmap : (AiRules.load_rules seed custom).map (fun r => r.id) =
        (AiRules.load_rules_merged seed custom).map Prod.fst := by
      rw [AiRules.load_rules, List.map_map]
      exact List.map_congr_left (fun kv hkv => hinv kv hkv)
    rw [hmap]
    exact hnd
  · rw [AiRules.load_rules_merged, alookup_mergeById id hid,
      alookup_mergeById id hid, alookup_nil, ← List.foldl_append,
      foldl_if_eq_getLast_filter]
    cases ((seed ++ custom).filter (fun r => r.id = id)).getLast? with
    | none => rfl
    | some x => rfl

/-- Witness for `later_source_wins_at_load`: with a seed HIGH rule and a
custom LOW rule sharing id `x`, the loaded definition for `x` is the
custom one. -/
theorem later_source_wins_at_load_witness :
    (alookup (AiRules.load_rules_merged
      [{ id := "x", label := "HIGH", reason := "s",
         rmatch := fun _ => true }]
      [{ id := "x", label := "LOW", reason := "c",
         rmatch := fun _ => true }]) "x").map (fun r => r.label) =
      some "LOW" := by
  have h := (later_source_wins_at_load
    [{ id := "x", label := "HIGH", reason := "s",
       rmatch := fun _ => true }]
    [{ id := "x", label := "LOW", reason := "c",
       rmatch := fun _ => true }] "x" (by decide)).2
  rw [h]
  rfl

/-! ## C9 — canonical keys under default ports and fragments -/

theorem takeWhile_append_stop {p : Char → Bool} (c : Char)
    (l2 : List Char) (hc : p c = false) :
    ∀ (l1 : List Char), (∀ x ∈ l1, p x = true) →
      (l1 ++ c :: l2).takeWhile p = l1 := by
  intro l1
  induction l1 with
  | nil => intro _; simp [List.takeWhile, hc]
  | cons x xs ih =>
      intro h
      have hx : p x = true := h x (List.mem_cons_self x xs)
      rw [List.cons_append, List.takeWhile_cons_of_pos hx,
        ih (fun y hy => h y (List.mem_cons_of_mem x hy))]

theorem breakOnChar_not_mem (c : Char) :
    ∀ (l : List Char), (∀ x ∈ l, x ≠ c) → breakOnChar c l = (l, none) := by
  intro l
  induction l with
  | nil => intro _; rfl
  | cons x xs ih =>
      intro h
      have hx : ¬x = c := h x (List.mem_cons_self x xs)
      simp only [breakOnChar, if_neg hx]
      rw [ih (fun y hy => h y (List.mem_cons_of_mem x hy))]

theorem breakOnChar_append (c : Char) (l2 : List Char) :
    ∀ (l1 : List Char), (∀ x ∈ l1, x ≠ c) →
      breakOnChar c (l1 ++ c :: l2) = (l1, some l2) := by
  intro l1
  induction l1 with
  | nil => intro _; simp [breakOnChar]
  | cons x xs ih =>
      intro h
      have hx : ¬x = c := h x (List.mem_cons_self x xs)
      simp only [List.cons_append, breakOnChar, if_neg hx, List.append_eq]
      rw [ih (fun y hy => h y (List.mem_cons_of_mem x hy))]

theorem hostinfo_of_no_at (l : List Char) (h : ∀ x ∈ l, x ≠ '@') :
    (l.reverse.takeWhile (fun c => c ≠ '@')).reverse = l := by
  rw [List.takeWhile_eq_self_iff.mpr, List.reverse_reverse]
  intro x hx
  simp only [decide_eq_true_eq]
  exact h x (List.mem_reverse.mp hx)

theorem netloc_host_port_eqs (host prt : String)
    (hh : ∀ c ∈ host.toList, c ≠ ':' ∧ c ≠ '@')
    (hp : ∀ c ∈ prt.toList, c ≠ ':' ∧ c ≠ '@') :
    hostOfNetloc (host ++ ":" ++ prt) =
      String.mk (host.toList.map Char.toLower) ∧
    portOfNetloc (host ++ ":" ++ prt) =
      (if prt.toList = [] then PortVal.absent
       else if prt.toList.all Char.isDigit then
         (if natOfDigits prt.toList ≤ 65535 then
           PortVal.ok (natOfDigits prt.toList)
         else PortVal.err)
       else PortVal.err) ∧
    hostOfNetloc host = String.mk (host.toList.map Char.toLower) ∧
    portOfNetloc host = PortVal.absent := by
  have hdata : (host ++ ":" ++ prt).toList =
      host.toList ++ ':' :: prt.toList := by
    show (host ++ ":" ++ prt).data = host.data ++ ':' :: prt.data
    rw [String.data_append, String.data_append, List.append_assoc]
    rfl
  have hnoat : ∀ x ∈ host.toList ++ ':' :: prt.toList, x ≠ '@' := by
    intro x hx
    rcases List.mem_append.mp hx with hx | hx
    · exact (hh x hx).2
    · rcases List.mem_cons.mp hx with rfl | hx
      · decide
      · exact (hp x hx).2
  have hnocolon : ∀ x ∈ host.toList, x ≠ ':' := fun x hx => (hh x hx).1
  have hnoat2 : ∀ x ∈ host.toList, x ≠ '@' := fun x hx => (hh x hx).2
  refine ⟨?_, ?_, ?_, ?_⟩
  · unfold hostOfNetloc
    rw [hdata, hostinfo_of_no_at _ hnoat]
    show String.mk (((host.toList ++ ':' :: prt.toList).takeWhile
      (fun c => c ≠ ':')).map Char.toLower) = _
    rw [takeWhile_append_stop ':' prt.toList (by decide) host.toList
      (fun x hx => by simpa using hnocolon x hx)]
  · unfold portOfNetloc
    rw [hdata, hostinfo_of_no_at _ hnoat]
    show (match breakOnChar ':' (host.toList ++ ':' :: prt.toList) with
      | (_, none) => PortVal.absent
      | (_, some p) =>
          if p = [] then PortVal.absent
          else if p.all Char.isDigit then
            let n := natOfDigits p
            if n ≤ 65535 then PortVal.ok n else PortVal.err
          else PortVal.err) = _
    rw [breakOnChar_append ':' prt.toList host.toList hnocolon]
  · unfold hostOfNetloc
    rw [hostinfo_of_no_at _ hnoat2]
    show String.mk ((host.toList.takeWhile
      (fun c => c ≠ ':')).map Char.toLower) = _
    rw [List.takeWhile_eq_self_iff.mpr
      (fun x hx => by simpa using hnocolon x hx)]
  · unfold portOfNetloc
    rw [hostinfo_of_no_at _ hnoat2]
    show (match breakOnChar ':' host.toList with
      | (_, none) => PortVal.absent
      | (_, some p) =>
          if p = [] then PortVal.absent
          else if p.all Char.isDigit then
            let n := natOfDigits p
            if n ≤ 65535 then PortVal.ok n else PortVal.err
          else PortVal.err) = _
    rw [breakOnChar_not_mem ':' _ hnocolon]

/-- C9 counterexample: the canonicalizer of `url_cache.py` lowercases
the whole netloc but keeps an explicit default port, so the producers
and consumers using it map `http://example.com:80/a` and
`http://example.com/a` — URLs differing only by an explicit default
port — to distinct keys, refuting the claim for that cited
canonicalizer. -/
theorem default_port_key_counterexample :
    UrlCache.canon_url "http://example.com:80/a" =
      "http://example.com:80/a" ∧
    UrlCache.canon_url "http://example.com/a" = "http://example.com/a" ∧
    UrlCache.canon_url "http://example.com:80/a" ≠
      UrlCache.canon_url "http://example.com/a" := by
  exact ⟨by decide, by decide, by decide⟩

/-- C9 (amended): the canonicalizer of `enrich_urls.py` maps two URLs
that differ only by an explicit default port (`:80` on http, `:443` on
https) or only by their fragment to the same canonical key (for netlocs
without user-info or a malformed port); the canonicalizer of
`url_cache.py` identifies fragment variants but keeps an explicit
default port, so the two port variants get distinct keys there (see the
counterexample).  URLs are described through the `urlsplit` model:
"differing only by port/fragment" is phrased as hypotheses on their
split results. -/
theorem canonicalizer_port_fragment_invariance :
    (∀ u1 u2 sch host prt path query f1 f2 : String,
      pyUrlsplit (pyStrip u1) =
        { scheme := sch, netloc := host ++ ":" ++ prt, path := path,
          query := query, fragment := f1 } →
      pyUrlsplit (pyStrip u2) =
        { scheme := sch, netloc := host, path := path, query := query,
          fragment := f2 } →
      (∀ c ∈ host.toList, c ≠ ':' ∧ c ≠ '@') →
      ((lowerStr sch = "http" ∧ prt = "80") ∨
        (lowerStr sch = "https" ∧ prt = "443")) →
      EnrichUrls.canon_url u1 = EnrichUrls.canon_url u2) ∧
    (∀ u1 u2 sch netloc path query f1 f2 : String,
      pyUrlsplit (pyStrip u1) =
        { scheme := sch, netloc := netloc, path := path, query := query,
          fragment := f1 } →
      pyUrlsplit (pyStrip u2) =
        { scheme := sch, netloc := netloc, path := path, query := query,
          fragment := f2 } →
      portOfNetloc netloc ≠ PortVal.err →
      EnrichUrls.canon_url u1 = EnrichUrls.canon_url u2) ∧
    (∀ u1 u2 sch netloc path query f1 f2 : String,
      pyUrlsplit u1 =
        { scheme := sch, netloc := netloc, path := path, query := query,
          fragment := f1 } →
      pyUrlsplit u2 =
        { scheme := sch, netloc := netloc, path := path, query := query,
          fragment := f2 } →
      UrlCache.canon_url u1 = UrlCache.canon_url u2) := by
  refine ⟨?_, ?_, ?_⟩
  · intro u1 u2 sch host prt path query f1 f2 h1 h2 hh hd
    have hsne : sch ≠ "" := by
      intro h
      rcases hd with ⟨hs, _⟩ | ⟨hs, _⟩ <;> rw [h] at hs <;>
        exact absurd hs (by decide)
    have hc1 : EnrichUrls.canon_url u1 =
        EnrichUrls.canonOfSplit u1 (pyUrlsplit (pyStrip u1)) := rfl
    have hc2 : EnrichUrls.canon_url u2 =
        EnrichUrls.canonOfSplit u2 (pyUrlsplit (pyStrip u2)) := rfl
    rw [hc1, hc2, h1, h2]
    rcases hd with ⟨hs, rfl⟩ | ⟨hs, rfl⟩
    · have hp : ∀ c ∈ ("80" : String).toList, c ≠ ':' ∧ c ≠ '@' := by
        decide
      obtain ⟨e1, e2, e3, e4⟩ := netloc_host_port_eqs host "80" hh hp
      have e2a : portOfNetloc (host ++ ":" ++ "80") = PortVal.ok 80 := by
        rw [e2]; rfl
      unfold EnrichUrls.canonOfSplit
      simp [e2a, e4, e1, e3, hsne, hs]
    · have hp : ∀ c ∈ ("443" : String).toList, c ≠ ':' ∧ c ≠ '@' := by
        decide
      obtain ⟨e1, e2, e3, e4⟩ := netloc_host_port_eqs host "443" hh hp
      have e2a : portOfNetloc (host ++ ":" ++ "443") = PortVal.ok 443 := by
        rw [e2]; rfl
      unfold EnrichUrls.canonOfSplit
      simp [e2a, e4, e1, e3, hsne, hs]
  · intro u1 u2 sch netloc path query f1 f2 h1 h2 hport
    have hc1 : EnrichUrls.canon_url u1 =
        EnrichUrls.canonOfSplit u1 (pyUrlsplit (pyStrip u1)) := rfl
    have hc2 : EnrichUrls.canon_url u2 =
        EnrichUrls.canonOfSplit u2 (pyUrlsplit (pyStrip u2)) := rfl
    rw [hc1, hc2, h1, h2]
    unfold EnrichUrls.canonOfSplit
    cases hp : portOfNetloc netloc with
    | err => exact absurd hp hport
    | absent => simp [hp]
    | ok n => simp [hp]
  · intro u1 u2 sch netloc path query f1 f2 h1 h2
    unfold UrlCache.canon_url
    rw [h1, h2]

/-- Witness for `canonicalizer_port_fragment_invariance` at the concrete
pair `http://example.com:80/a#x` / `http://example.com/a`. -/
theorem canonicalizer_port_fragment_invariance_witness :
    EnrichUrls.canon_url "http://example.com:80/a#x" =
      EnrichUrls.canon_url "http://example.com/a" := by
  exact canonicalizer_port_fragment_invariance.1
    "http://example.com:80/a#x" "http://example.com/a" "http"
    "example.com" "80" "/a" "" "x" "" (by decide) (by decide) (by decide)
    (Or.inl ⟨by decide, rfl⟩)

end ReconLens
